import Mathlib

/-!
Verification of the map-tile-converter core against its source.

Shallow embedding conventions:
* A byte buffer (`Buffer`) is a `List Nat` (each element the byte value).
* A file name is a `List Char`; a directory is a `List (List Char × List Nat)`
  of (file name, file bytes) pairs, and a directory that does not exist is
  `none : Option _`.
* JS numbers that the source only ever uses as exact integers are `Int`/`Nat`;
  JS floating-point arithmetic on fractional values is modelled as exact real
  arithmetic.
* Fallible operations return `Except String _` (`Except.error` models a thrown
  `Error`); the chunking loop of `createChunks`, whose termination depends on
  the sign of `chunkSize`, is modelled with explicit fuel, `none` meaning the
  loop has not returned within the given number of iterations.
-/

/-- Models the MD5 digest `crypto.createHash("md5").update(data).digest("hex")`
as a deterministic function of the byte sequence.  No claim below depends on
the digest algorithm itself: only on determinism (the same bytes always hash
alike, which drives the verify result) and on the concrete digests of the few
concrete inputs used below being distinct, which this model shares with MD5. -/
def md5 (data : List Nat) : Nat :=
  data.foldl (fun acc b => (acc * 1000003 + b % 256 + 7) % (2 ^ 128)) 5381

/-- Decimal digits of `n`, least significant first, empty for `0`; the
structural `fuel` argument only needs to dominate the digit count (`n` itself
is plenty, see `natDigitsRev_eq_digits`). -/
def natDigitsRev (n : Nat) : Nat → List Char
  | 0 => []
  | fuel + 1 => if n = 0 then [] else Nat.digitChar (n % 10) :: natDigitsRev (n / 10) fuel

/-- JS `n.toString()` for a non-negative integer. -/
def natToString (n : Nat) : List Char :=
  if n = 0 then ['0'] else (natDigitsRev n n).reverse

/-- JS `s.padStart(3, "0")`. -/
def padStart3 (s : List Char) : List Char :=
  if 3 ≤ s.length then s else List.replicate (3 - s.length) '0' ++ s

/-- The chunk file name the source builds:
`"chunk_" + chunkIndex.toString().padStart(3, "0") + ".bin"`. -/
def chunkFilename (i : Nat) : List Char :=
  "chunk_".toList ++ padStart3 (natToString i) ++ ".bin".toList

/-- The filter both `reconstructZipFromChunks` and `getChunkSetDetails` apply
to directory entries: `file.startsWith("chunk_") && file.endsWith(".bin")`. -/
def isChunkFileName (s : List Char) : Bool :=
  "chunk_".toList.isPrefixOf s && ".bin".toList.isSuffixOf s

/-- Numeric value of a list of decimal digit characters (`parseInt`, base 10). -/
def digitsVal (ds : List Char) : Nat :=
  ds.foldl (fun acc c => acc * 10 + (c.toNat - '0'.toNat)) 0

/-- Match the regular expression `chunk_(\d+)\.bin` at the head of `s`,
returning the numeric value of the captured digit run.  Backtracking the
greedy `\d+` cannot help (a digit never equals `'.'`), so taking the maximal
digit run is exact. -/
def matchChunkAt (s : List Char) : Option Nat :=
  if "chunk_".toList.isPrefixOf s then
    let t := s.drop 6
    let ds := t.takeWhile Char.isDigit
    if ds ≠ [] ∧ ".bin".toList.isPrefixOf (t.drop ds.length) then
      some (digitsVal ds)
    else none
  else none

/-- `parseInt(name.match(/chunk_(\d+)\.bin/)[1])`: search for the leftmost
match of the pattern and return the captured index. -/
def regexChunkIndex : List Char → Option Nat
  | [] => none
  | c :: cs =>
    match matchChunkAt (c :: cs) with
    | some n => some n
    | none => regexChunkIndex cs

/-- Attach to every directory entry the index parsed from its name; `none`
when some name has no match, in which case the source's sort comparator
throws a `TypeError` (`match` returns `null`). -/
def parseAll : List (List Char × List Nat) → Option (List (Nat × List Char × List Nat))
  | [] => some []
  | f :: fs =>
    match regexChunkIndex f.1, parseAll fs with
    | some k, some rest => some ((k, f.1, f.2) :: rest)
    | _, _ => none

/-- Insert into a key-sorted list, before any entry of equal key (the JS
`sort` with comparator `aIndex - bIndex` is stable, so an earlier entry stays
before later entries of equal key). -/
def insertKeyed (x : Nat × α) : List (Nat × α) → List (Nat × α)
  | [] => [x]
  | y :: ys => if x.1 ≤ y.1 then x :: y :: ys else y :: insertKeyed x ys

/-- Stable sort by numeric key, modelling `.sort((a, b) => aIndex - bIndex)`. -/
def sortKeyed : List (Nat × α) → List (Nat × α)
  | [] => []
  | x :: xs => insertKeyed x (sortKeyed xs)

/-- One chunk record as pushed by `createChunks` /
`createChunksFromExistingZip` (the `path` field is the directory joined with
`filename` and is omitted).  The source persists the chunk's bytes to the file
at that path via `fs.writeFile`; the Lean model has no filesystem, so the
written bytes are carried on the record in `data`. -/
structure Chunk where
  index : Nat
  filename : List Char
  size : Int
  checksum : Nat
  data : List Nat
deriving Repr, DecidableEq

/-- `Buffer.subarray(a, b)` with the JS clamping semantics: negative indices
count from the end, both ends clamp into `[0, length]`, and an empty slice
results when the clamped start is not below the clamped end. -/
def jsSubarray (buf : List Nat) (a b : Int) : List Nat :=
  let len : Int := buf.length
  let a' := if a < 0 then max (len + a) 0 else min a len
  let b' := if b < 0 then max (len + b) 0 else min b len
  (buf.take b'.toNat).drop a'.toNat

/-- The chunking loop shared by `createChunks` (lines 797-832) and
`createChunksFromExistingZip` (lines 941-979):

```
while (offset < totalSize) {
  const remainingBytes = totalSize - offset;
  const currentChunkSize = Math.min(chunkSize, remainingBytes);
  const chunkData = buffer.subarray(offset, offset + currentChunkSize);
  ... push { index, filename, size, checksum } ...
  offset += currentChunkSize;
  chunkIndex++;
}
```

The loop need not terminate (for `chunkSize ≤ 0` the offset never advances),
so it takes fuel; `none` means the loop has not returned within `fuel`
iterations. -/
def createChunksGo (buffer : List Nat) (totalSize chunkSize offset : Int) (idx : Nat) :
    Nat → Option (List Chunk)
  | 0 => none
  | fuel + 1 =>
    if offset < totalSize then
      let remainingBytes := totalSize - offset
      let currentChunkSize := min chunkSize remainingBytes
      let chunkData := jsSubarray buffer offset (offset + currentChunkSize)
      match createChunksGo buffer totalSize chunkSize (offset + currentChunkSize) (idx + 1) fuel with
      | some rest =>
        some ({ index := idx, filename := chunkFilename idx, size := currentChunkSize,
                checksum := md5 chunkData, data := chunkData } :: rest)
      | none => none
    else
      some []

/-- `createChunks(zipFilePath, chunkSize, downloadId)`: reads the file into a
buffer and runs the chunking loop from offset `0`, index `0`.
`totalSize` is the file's size, i.e. the buffer's length. -/
def createChunks (buffer : List Nat) (chunkSize : Int) (fuel : Nat) : Option (List Chunk) :=
  createChunksGo buffer (buffer.length : Int) chunkSize 0 0 fuel

/-- Total description of the chunking loop for a positive chunk size `s`:
chunk after chunk of `s` bytes is taken off the front of the remaining data.
`createChunksGo_eq_chunksOf` proves it equal to the fuelled source loop. -/
def chunksOf (s : Nat) (data : List Nat) (idx : Nat) : List Chunk :=
  if h : 0 < s ∧ data ≠ [] then
    { index := idx, filename := chunkFilename idx, size := ((data.take s).length : Int),
      checksum := md5 (data.take s), data := data.take s } :: chunksOf s (data.drop s) (idx + 1)
  else []
termination_by data.length
decreasing_by
  simp only [List.length_drop]
  exact Nat.sub_lt (List.length_pos.mpr h.2) h.1

/-- `reconstructZipFromChunks(downloadId, outputPath)` (lines 1046-1093):
throws when the chunk directory does not exist; otherwise lists the
directory, keeps the `chunk_*.bin` entries, sorts them by parsed numeric
index, concatenates their bytes and writes the result.  Returns the written
bytes together with `chunksUsed` (the reported `size` is the length of the
bytes). -/
def reconstructZipFromChunks (dir : Option (List (List Char × List Nat))) :
    Except String (List Nat × Nat) :=
  match dir with
  | none => Except.error "Chunk directory not found"
  | some files =>
    let chunkFiles := files.filter (fun f => isChunkFileName f.1)
    match parseAll chunkFiles with
    | none => Except.error "TypeError"
    | some keyed =>
      let sorted := sortKeyed keyed
      let combined := (sorted.map (fun kf => kf.2.2)).flatten
      Except.ok (combined, sorted.length)

/-- `fs.readFile(path.join(chunkDir, name))`: the bytes of the directory entry
called `name` (the first one, though a real directory listing never repeats a
name); `none` when there is no such entry (the read would throw). -/
def readDirFile (files : List (List Char × List Nat)) (name : List Char) : Option (List Nat) :=
  files.lookup name

/-- One entry of the `chunks` array built by `getChunkSetDetails`
(`modifiedAt` is omitted: no claim consults it). -/
structure DetailChunk where
  filename : List Char
  size : Int
  checksum : Nat
deriving Repr, DecidableEq

/-- `ChunkUtils.getChunkSetDetails(downloadId)` (part_003 lines 63-116):
throws when the chunk directory does not exist; otherwise lists it, keeps the
`chunk_*.bin` entries, sorts by parsed numeric index, and for each entry
re-reads the file as it currently is and records its size and the MD5 of its
current bytes.  A name from the listing is always readable, so the `getD []`
branch of the two reads is never taken. -/
def getChunkSetDetails (dir : Option (List (List Char × List Nat))) :
    Except String (List DetailChunk) :=
  match dir with
  | none => Except.error "Chunk set not found"
  | some files =>
    let chunkFiles := files.filter (fun f => isChunkFileName f.1)
    match parseAll chunkFiles with
    | none => Except.error "TypeError"
    | some keyed =>
      let sorted := sortKeyed keyed
      Except.ok (sorted.map (fun kf =>
        { filename := kf.2.1,
          size := (((readDirFile files kf.2.1).getD []).length : Int),
          checksum := md5 ((readDirFile files kf.2.1).getD []) }))

/-- The result object of `verifyChunkIntegrity`. -/
structure VerifyResult where
  totalChunks : Nat
  validChunks : Nat
  invalidChunks : Nat
  isValid : Bool
deriving Repr, DecidableEq

/-- `ChunkUtils.verifyChunkIntegrity(downloadId)` (part_003 lines 121-170):
obtains the chunk records from `getChunkSetDetails`, then for each record
re-reads the chunk file's current bytes, hashes them, and compares the hash
with the record's `checksum` field, counting matches and mismatches;
`isValid` iff no mismatch. -/
def verifyChunkIntegrity (dir : Option (List (List Char × List Nat))) :
    Except String VerifyResult :=
  match dir with
  | none => Except.error "Chunk set not found"
  | some files =>
    match getChunkSetDetails (some files) with
    | Except.error e => Except.error e
    | Except.ok chunks =>
      let counts := chunks.foldl
        (fun (acc : Nat × Nat) c =>
          let currentChecksum := md5 ((readDirFile files c.filename).getD [])
          if currentChecksum = c.checksum then (acc.1 + 1, acc.2) else (acc.1, acc.2 + 1))
        (0, 0)
      Except.ok { totalChunks := chunks.length, validChunks := counts.1,
                  invalidChunks := counts.2, isValid := counts.2 = 0 }

/-- The job metadata record persisted as `metadata/<downloadId>.json`, viewed
as a JS object whose keys may be absent (`none` = key not present).  The keys
the claims never consult (identifiers, names, bounds, zoom range, map type,
chunk size, chunk manifest) are omitted; `createdAt`/`updatedAt` timestamps
are abstract instants (`Nat`). -/
structure JobRecord where
  status : Option String := none
  totalTiles : Option Int := none
  downloadedTiles : Option Int := none
  failedTiles : Option Int := none
  progress : Option Int := none
  totalSize : Option Int := none
  createdAt : Option Nat := none
  updatedAt : Option Nat := none
  error : Option String := none
deriving Repr, DecidableEq

/-- The empty JS object `{}` that `updateProgress` starts from when no
metadata file exists. -/
def emptyRecord : JobRecord := {}

/-- JS object spread `{ ...cur, ...upd }`: a key present in `upd` overrides
`cur`, a key absent from `upd` keeps `cur`'s value. -/
def mergeRecords (cur upd : JobRecord) : JobRecord where
  status := upd.status.orElse fun _ => cur.status
  totalTiles := upd.totalTiles.orElse fun _ => cur.totalTiles
  downloadedTiles := upd.downloadedTiles.orElse fun _ => cur.downloadedTiles
  failedTiles := upd.failedTiles.orElse fun _ => cur.failedTiles
  progress := upd.progress.orElse fun _ => cur.progress
  totalSize := upd.totalSize.orElse fun _ => cur.totalSize
  createdAt := upd.createdAt.orElse fun _ => cur.createdAt
  updatedAt := upd.updatedAt.orElse fun _ => cur.updatedAt
  error := upd.error.orElse fun _ => cur.error

/-- `updateProgress(downloadId, updates)` (lines 841-865): reads the job's
metadata file if it exists (else starts from `{}`), merges `updates` over it,
unconditionally recomputes `updatedAt` to the current instant `now`, writes
the result back and returns it.  No validation of any kind is performed on
the previous or the new contents. -/
def updateProgress (file : Option JobRecord) (updates : JobRecord) (now : Nat) : JobRecord :=
  let currentMetadata := file.getD emptyRecord
  let updatedMetadata := mergeRecords currentMetadata updates
  { updatedMetadata with updatedAt := some now }

/-- The batch loop of `generateMapWithProgress` (lines 622-627), reduced to
its control flow.  Before batch number `done` the loop calls
`getProgress(downloadId)`; `statusAt done` is the `status` field of the
metadata it reads (`none` when the record does not exist or carries no
status, both of which skip the check, since `currentProgress &&
currentProgress.status === "PAUSED"` is then false).  If the status is
`"PAUSED"` the loop throws `Error("Download paused by user")`; otherwise the
batch is fetched and the loop continues.  On normal completion it returns
the number of batches fetched. -/
def fetchBatchesGo (statusAt : Nat → Option String) : Nat → Nat → Except String Nat
  | done, 0 => Except.ok done
  | done, r + 1 =>
    match statusAt done with
    | some s =>
      if s = "PAUSED" then Except.error "Download paused by user"
      else fetchBatchesGo statusAt (done + 1) r
    | none => fetchBatchesGo statusAt (done + 1) r

/-- Run the batch loop over `numBatches` batches starting from batch `0`. -/
def fetchBatches (statusAt : Nat → Option String) (numBatches : Nat) : Except String Nat :=
  fetchBatchesGo statusAt 0 numBatches

/-- JS `Math.round` on a finite value: round half toward positive infinity. -/
def jsRound (q : ℚ) : Int := ⌊q + 1 / 2⌋

/-- Line 678: `Math.round((downloadedTiles / totalTiles) * 90)`, the float
division modelled as exact rational division.  (For `totalTiles = 0` the
source produces `NaN` where this model produces `0`; every statement below
assumes a positive tile total.) -/
def downloadProgress (downloadedTiles totalTiles : Int) : Int :=
  jsRound ((downloadedTiles : ℚ) / (totalTiles : ℚ) * 90)

/-- The local `progressMetadata` object as first built (lines 403-424), with
all timestamps at instant `t0`.  `error: null` is modelled as the key being
absent; no claim distinguishes a null value from a missing key. -/
def initialMetadata (t0 : Nat) : JobRecord :=
  { status := some "INITIALIZING", totalTiles := some 0, downloadedTiles := some 0,
    failedTiles := some 0, progress := some 0, totalSize := some 0,
    createdAt := some t0, updatedAt := some t0, error := none }

/-- The update of lines 435-437: the local object after
`progressMetadata.totalTiles = totalTiles; progressMetadata.status =
"DOWNLOADING"` — the whole object is passed to `updateProgress`. -/
def downloadingUpdate (t0 : Nat) (totalTiles : Int) : JobRecord :=
  { initialMetadata t0 with status := some "DOWNLOADING", totalTiles := some totalTiles }

/-- The per-batch update of lines 679-684: only the four listed keys are
present on the `updates` object. -/
def batchUpdate (totalTiles downloadedTiles failedTiles : Int) (t : Nat) : JobRecord :=
  { downloadedTiles := some downloadedTiles, failedTiles := some failedTiles,
    progress := some (downloadProgress downloadedTiles totalTiles), updatedAt := some t }

/-- The update of lines 457-462: the whole local object again, after
`status = "CHUNKING"` and the final counters are assigned.  Its `progress`
key still holds the initial `0` — the local object's `progress` field is
never reassigned before this point (the per-batch updates at lines 679-684
were fresh objects, not mutations of `progressMetadata`). -/
def chunkingUpdate (t0 : Nat) (totalTiles downloadedTiles failedTiles totalSize : Int) :
    JobRecord :=
  { downloadingUpdate t0 totalTiles with
    status := some "CHUNKING"
    downloadedTiles := some downloadedTiles
    failedTiles := some failedTiles
    totalSize := some totalSize }

/-- The update of lines 473-477: the local object after `status =
"COMPLETED"; progress = 100; updatedAt = now`. -/
def completedUpdate (t0 : Nat) (totalTiles downloadedTiles failedTiles totalSize : Int)
    (t : Nat) : JobRecord :=
  { chunkingUpdate t0 totalTiles downloadedTiles failedTiles totalSize with
    status := some "COMPLETED"
    progress := some 100
    updatedAt := some t }

/-- The successive states of the stored metadata record over one successful
run of `generateOfflineMapChunked`, all timestamps at instant `0`:
the initial `fs.writeFile` of the record (lines 427-431), the DOWNLOADING
update, one update per fetch batch (`batches` lists the counter values
`(downloadedTiles, failedTiles)` each batch reports), the CHUNKING update
(which reports the final counters, i.e. those of the last batch), and the
COMPLETED update. -/
def pipelineRecords (totalTiles : Int) (batches : List (Int × Int)) (totalSize : Int) :
    List JobRecord :=
  let r0 := initialMetadata 0
  let r1 := updateProgress (some r0) (downloadingUpdate 0 totalTiles) 0
  let recs := batches.scanl
    (fun r df => updateProgress (some r) (batchUpdate totalTiles df.1 df.2 0) 0) r1
  let dF := (batches.getLastD (0, 0)).1
  let fF := (batches.getLastD (0, 0)).2
  let rChunk := updateProgress (some (recs.getLastD r1))
    (chunkingUpdate 0 totalTiles dF fF totalSize) 0
  let rDone := updateProgress (some rChunk)
    (completedUpdate 0 totalTiles dF fF totalSize 0) 0
  r0 :: recs ++ [rChunk, rDone]

/-- The `progress` values a poller reading the stored record would see over
one successful run, in order. -/
def pipelineProgressValues (totalTiles : Int) (batches : List (Int × Int))
    (totalSize : Int) : List Int :=
  (pipelineRecords totalTiles batches totalSize).filterMap (fun r => r.progress)

/-- A latitude/longitude pair, coordinates as exact reals. -/
structure LatLng where
  latitude : ℝ
  longitude : ℝ

/-- The `bounds` parameter: `{southwest, northeast}` corners. -/
structure GeoBounds where
  southwest : LatLng
  northeast : LatLng

/-- `(1 << zoom)` with ECMAScript semantics: a 32-bit shift by `zoom % 32`,
whose result is read back as a signed 32-bit integer — so the value is
`2 ^ (zoom % 32)` except when `zoom % 32 = 31`, where the sign bit is set and
the result is `-2^31`. -/
def jsShl1 (zoom : Nat) : Int :=
  if zoom % 32 = 31 then -(2 ^ 31) else 2 ^ (zoom % 32)

/-- `longitudeToTileX` (lines 28-30):
`Math.floor(((longitude + 180.0) / 360.0) * (1 << zoom))`. -/
noncomputable def longitudeToTileX (longitude : ℝ) (zoom : Nat) : Int :=
  ⌊(longitude + 180) / 360 * (jsShl1 zoom : ℝ)⌋

/-- `latitudeToTileY` (lines 32-43): the Web-Mercator inverse
`Math.floor(((1 - Math.log(Math.tan(lat·π/180) + 1/Math.cos(lat·π/180)) / π) / 2) * (1 << zoom))`. -/
noncomputable def latitudeToTileY (latitude : ℝ) (zoom : Nat) : Int :=
  ⌊(1 - Real.log (Real.tan (latitude * Real.pi / 180) +
      1 / Real.cos (latitude * Real.pi / 180)) / Real.pi) / 2 * (jsShl1 zoom : ℝ)⌋

/-- `calculateTileCount(bounds, minZoom, maxZoom)` (lines 46-57): for each
zoom level from `minZoom` to `maxZoom` inclusive, add
`(maxX - minX + 1) * (maxY - minY + 1)` computed from the corner tiles
(`minY` comes from the northeast latitude, `maxY` from the southwest one,
Mercator tile rows growing southward). -/
noncomputable def calculateTileCount (bounds : GeoBounds) (minZoom maxZoom : Nat) : Int :=
  ((List.range' minZoom (maxZoom + 1 - minZoom)).map (fun zoom =>
    let minX := longitudeToTileX bounds.southwest.longitude zoom
    let maxX := longitudeToTileX bounds.northeast.longitude zoom
    let minY := latitudeToTileY bounds.northeast.latitude zoom
    let maxY := latitudeToTileY bounds.southwest.latitude zoom
    (maxX - minX + 1) * (maxY - minY + 1))).sum

/-! ### Decimal-digit facts: the chunk file name round-trips through the
`chunk_(\d+)\.bin` parse. -/

lemma digitChar_isDigit {d : Nat} (h : d < 10) : (Nat.digitChar d).isDigit = true := by
  interval_cases d <;> decide

lemma digitChar_val {d : Nat} (h : d < 10) : (Nat.digitChar d).toNat - '0'.toNat = d := by
  interval_cases d <;> decide

lemma natDigitsRev_eq_digits : ∀ (fuel n : Nat), n ≤ fuel →
    natDigitsRev n fuel = (Nat.digits 10 n).map Nat.digitChar := by
  intro fuel
  induction fuel with
  | zero =>
    intro n hn
    obtain rfl : n = 0 := Nat.le_zero.mp hn
    simp [natDigitsRev]
  | succ f ih =>
    intro n hn
    by_cases h0 : n = 0
    · subst h0; simp [natDigitsRev]
    · rw [natDigitsRev, if_neg h0,
        Nat.digits_def' (by norm_num : (1 : Nat) < 10) (Nat.pos_of_ne_zero h0),
        List.map_cons, ih (n / 10) (by
          have := Nat.div_lt_self (Nat.pos_of_ne_zero h0) (by norm_num : (1 : Nat) < 10)
          omega)]

lemma digitsVal_append_singleton (xs : List Char) (c : Char) :
    digitsVal (xs ++ [c]) = digitsVal xs * 10 + (c.toNat - '0'.toNat) := by
  simp [digitsVal, List.foldl_append]

lemma digitsVal_rev_map : ∀ ds : List Nat, (∀ d ∈ ds, d < 10) →
    digitsVal ((ds.map Nat.digitChar).reverse) = Nat.ofDigits 10 ds := by
  intro ds
  induction ds with
  | nil => intro _; simp [digitsVal, Nat.ofDigits]
  | cons d ds ih =>
    intro h
    rw [List.map_cons, List.reverse_cons, digitsVal_append_singleton,
      ih (fun x hx => h x (List.mem_cons_of_mem _ hx)),
      digitChar_val (h d (List.mem_cons_self _ _)), Nat.ofDigits_cons]
    ring

lemma digitsVal_natToString (n : Nat) : digitsVal (natToString n) = n := by
  by_cases h0 : n = 0
  · subst h0; decide
  · rw [natToString, if_neg h0, natDigitsRev_eq_digits n n le_rfl,
      digitsVal_rev_map _ (fun d hd => Nat.digits_lt_base (by norm_num) hd),
      Nat.ofDigits_digits]

lemma natToString_all_digit (n : Nat) : ∀ c ∈ natToString n, c.isDigit = true := by
  by_cases h0 : n = 0
  · subst h0; decide
  · rw [natToString, if_neg h0, natDigitsRev_eq_digits n n le_rfl]
    intro c hc
    rw [List.mem_reverse, List.mem_map] at hc
    obtain ⟨d, hd, rfl⟩ := hc
    exact digitChar_isDigit (Nat.digits_lt_base (by norm_num) hd)

lemma natToString_ne_nil (n : Nat) : natToString n ≠ [] := by
  by_cases h0 : n = 0
  · subst h0; decide
  · rw [natToString, if_neg h0]
    intro h
    have h2 := digitsVal_natToString n
    rw [natToString, if_neg h0, h] at h2
    exact h0 (by simpa [digitsVal] using h2.symm)

lemma digitsVal_replicate_zero (k : Nat) (ds : List Char) :
    digitsVal (List.replicate k '0' ++ ds) = digitsVal ds := by
  induction k with
  | zero => rfl
  | succ m ih => simpa [digitsVal, List.replicate_succ] using ih

lemma padStart3_all_digit (s : List Char) (h : ∀ c ∈ s, c.isDigit = true) :
    ∀ c ∈ padStart3 s, c.isDigit = true := by
  rw [padStart3]
  split
  · exact h
  · intro c hc
    rcases List.mem_append.mp hc with hm | hm
    · rw [List.eq_of_mem_replicate hm]; decide
    · exact h c hm

lemma padStart3_val (s : List Char) : digitsVal (padStart3 s) = digitsVal s := by
  rw [padStart3]
  split
  · rfl
  · exact digitsVal_replicate_zero _ _

lemma padStart3_ne_nil (s : List Char) (h : s ≠ []) : padStart3 s ≠ [] := by
  rw [padStart3]
  split
  · exact h
  · simp [h]

lemma takeWhile_append_of_all {p : Char → Bool} (l l' : List Char)
    (h : ∀ c ∈ l, p c = true) : (l ++ l').takeWhile p = l ++ l'.takeWhile p := by
  induction l with
  | nil => rfl
  | cons a as ih =>
    rw [List.cons_append, List.takeWhile_cons, h a (List.mem_cons_self _ _)]
    simp [ih (fun c hc => h c (List.mem_cons_of_mem _ hc))]

lemma matchChunkAt_chunkFilename (i : Nat) : matchChunkAt (chunkFilename i) = some i := by
  have hdig := padStart3_all_digit _ (natToString_all_digit i)
  have hpre : "chunk_".toList.isPrefixOf (chunkFilename i) = true := by
    simp [chunkFilename, List.isPrefixOf_iff_prefix, List.append_assoc]
  have hdrop : (chunkFilename i).drop 6 = padStart3 (natToString i) ++ ".bin".toList := by
    rw [chunkFilename, show "chunk_".toList = ['c', 'h', 'u', 'n', 'k', '_'] from rfl]
    simp
  have htake : (padStart3 (natToString i) ++ ".bin".toList).takeWhile Char.isDigit
      = padStart3 (natToString i) := by
    rw [takeWhile_append_of_all _ _ hdig,
      show List.takeWhile Char.isDigit ".bin".toList = [] from by decide, List.append_nil]
  rw [matchChunkAt, if_pos hpre]
  simp only [hdrop, htake]
  rw [List.drop_left, if_pos]
  · rw [padStart3_val, digitsVal_natToString]
  · exact ⟨padStart3_ne_nil _ (natToString_ne_nil i), by simp [List.isPrefixOf_iff_prefix]⟩

lemma regexChunkIndex_chunkFilename (i : Nat) : regexChunkIndex (chunkFilename i) = some i := by
  have h := matchChunkAt_chunkFilename i
  rw [chunkFilename] at h ⊢
  rw [show ("chunk_".toList ++ padStart3 (natToString i) ++ ".bin".toList) =
    'c' :: ('h' :: ('u' :: ('n' :: ('k' :: ('_' :: (padStart3 (natToString i) ++ ".bin".toList))))))
    from by simp [String.toList]] at h ⊢
  rw [regexChunkIndex, h]

lemma isChunkFileName_chunkFilename (i : Nat) : isChunkFileName (chunkFilename i) = true := by
  rw [isChunkFileName, chunkFilename]
  apply Bool.and_eq_true_iff.mpr
  constructor
  · simp [List.isPrefixOf_iff_prefix, List.append_assoc]
  · rw [List.isSuffixOf_iff_suffix]
    exact ⟨'c' :: 'h' :: 'u' :: 'n' :: 'k' :: '_' :: padStart3 (natToString i), by simp⟩

/-! ### Structure of the chunk list produced by a split with positive chunk
size. -/

lemma chunksOf_data_flatten (s : Nat) (hs : 0 < s) :
    ∀ (n : Nat) (data : List Nat), data.length ≤ n → ∀ idx,
      ((chunksOf s data idx).map (fun c => c.data)).flatten = data := by
  intro n
  induction n with
  | zero =>
    intro data hlen idx
    obtain rfl : data = [] := List.length_eq_zero.mp (Nat.le_zero.mp hlen)
    rw [chunksOf, dif_neg (by simp)]
    rfl
  | succ m ih =>
    intro data hlen idx
    by_cases hd : data = []
    · subst hd
      rw [chunksOf, dif_neg (by simp)]
      rfl
    · rw [chunksOf, dif_pos ⟨hs, hd⟩, List.map_cons, List.flatten_cons,
        ih (data.drop s) (by
          rw [List.length_drop]
          have : 0 < data.length := List.length_pos.mpr hd
          omega) (idx + 1),
        List.take_append_drop]

lemma chunksOf_sum_size (s : Nat) (hs : 0 < s) :
    ∀ (n : Nat) (data : List Nat), data.length ≤ n → ∀ idx,
      ((chunksOf s data idx).map (fun c => c.size)).sum = (data.length : Int) := by
  intro n
  induction n with
  | zero =>
    intro data hlen idx
    obtain rfl : data = [] := List.length_eq_zero.mp (Nat.le_zero.mp hlen)
    rw [chunksOf, dif_neg (by simp)]
    rfl
  | succ m ih =>
    intro data hlen idx
    by_cases hd : data = []
    · subst hd
      rw [chunksOf, dif_neg (by simp)]
      rfl
    · have hpos : 0 < data.length := List.length_pos.mpr hd
      rw [chunksOf, dif_pos ⟨hs, hd⟩, List.map_cons, List.sum_cons,
        ih (data.drop s) (by rw [List.length_drop]; omega) (idx + 1)]
      rw [List.length_take, List.length_drop]
      push_cast
      omega

lemma chunksOf_filename (s : Nat) :
    ∀ (n : Nat) (data : List Nat), data.length ≤ n → ∀ idx,
      ∀ c ∈ chunksOf s data idx, c.filename = chunkFilename c.index := by
  intro n
  induction n with
  | zero =>
    intro data hlen idx
    obtain rfl : data = [] := List.length_eq_zero.mp (Nat.le_zero.mp hlen)
    rw [chunksOf, dif_neg (by simp)]
    intro c hc
    exact absurd hc (List.not_mem_nil c)
  | succ m ih =>
    intro data hlen idx
    by_cases h : 0 < s ∧ data ≠ []
    · rw [chunksOf, dif_pos h]
      intro c hc
      rcases List.mem_cons.mp hc with rfl | hc
      · rfl
      · exact ih (data.drop s) (by
          rw [List.length_drop]
          have : 0 < data.length := List.length_pos.mpr h.2
          omega) (idx + 1) c hc
    · rw [chunksOf, dif_neg h]
      intro c hc
      exact absurd hc (List.not_mem_nil c)

lemma chunksOf_indices (s : Nat) :
    ∀ (n : Nat) (data : List Nat), data.length ≤ n → ∀ idx,
      (chunksOf s data idx).map (fun c => c.index)
        = List.range' idx (chunksOf s data idx).length := by
  intro n
  induction n with
  | zero =>
    intro data hlen idx
    obtain rfl : data = [] := List.length_eq_zero.mp (Nat.le_zero.mp hlen)
    rw [chunksOf, dif_neg (by simp)]
    rfl
  | succ m ih =>
    intro data hlen idx
    by_cases h : 0 < s ∧ data ≠ []
    · rw [chunksOf, dif_pos h, List.map_cons, List.length_cons, List.range'_succ,
        ih (data.drop s) (by
          rw [List.length_drop]
          have : 0 < data.length := List.length_pos.mpr h.2
          omega) (idx + 1)]
    · rw [chunksOf, dif_neg h]
      rfl

lemma insertKeyed_of_le {α : Type} (x : Nat × α) (l : List (Nat × α))
    (h : ∀ y ∈ l.head?, x.1 ≤ y.1) : insertKeyed x l = x :: l := by
  cases l with
  | nil => rfl
  | cons y ys => exact if_pos (h y rfl)

lemma sortKeyed_eq_self_of_ascending {α : Type} :
    ∀ l : List (Nat × α), l.Chain' (fun a b => a.1 < b.1) → sortKeyed l = l := by
  intro l
  induction l with
  | nil => intro _; rfl
  | cons x xs ih =>
    intro h
    rw [sortKeyed, ih (List.Chain'.tail h)]
    apply insertKeyed_of_le
    intro y hy
    rcases xs with _ | ⟨z, zs⟩
    · exact absurd hy (by simp)
    · rw [show y = z from (by simpa using hy : z = y).symm]
      exact le_of_lt (List.chain'_cons.mp h).1

lemma parseAll_map_chunk (chunks : List Chunk)
    (h : ∀ c ∈ chunks, c.filename = chunkFilename c.index) :
    parseAll (chunks.map (fun c => (c.filename, c.data)))
      = some (chunks.map (fun c => (c.index, c.filename, c.data))) := by
  induction chunks with
  | nil => rfl
  | cons c cs ih =>
    rw [List.map_cons, parseAll, h c (List.mem_cons_self _ _),
      regexChunkIndex_chunkFilename, ih (fun x hx => h x (List.mem_cons_of_mem _ hx)),
      List.map_cons, h c (List.mem_cons_self _ _)]

/-- Round trip: reconstructing from the directory holding exactly the chunk
files a split with positive chunk size wrote returns the original bytes, and
reports one chunk used per chunk written. -/
lemma reconstruct_chunksOf (s : Nat) (hs : 0 < s) (data : List Nat) :
    reconstructZipFromChunks
        (some ((chunksOf s data 0).map (fun c => (c.filename, c.data))))
      = Except.ok (data, (chunksOf s data 0).length) := by
  set chunks := chunksOf s data 0 with hchunks
  have hname : ∀ c ∈ chunks, c.filename = chunkFilename c.index :=
    chunksOf_filename s data.length data le_rfl 0
  have hfilter :
      (chunks.map (fun c => (c.filename, c.data))).filter (fun f => isChunkFileName f.1)
        = chunks.map (fun c => (c.filename, c.data)) := by
    apply List.filter_eq_self.mpr
    intro f hf
    rcases List.mem_map.mp hf with ⟨c, hc, rfl⟩
    rw [hname c hc]
    exact isChunkFileName_chunkFilename c.index
  have hasc : (chunks.map (fun c => (c.index, c.filename, c.data))).Chain'
      (fun a b => a.1 < b.1) := by
    rw [List.chain'_map]
    have hidx := chunksOf_indices s data.length data le_rfl 0
    have : (chunks.map (fun c => c.index)).Chain' (· < ·) := by
      rw [hidx]
      exact (List.pairwise_lt_range' 0 chunks.length 1 (by norm_num)).chain'
    rwa [List.chain'_map] at this
  have hflat : ((chunks.map (fun c => (c.index, c.filename, c.data))).map
      (fun kf => kf.2.2)).flatten = data := by
    rw [List.map_map]
    exact chunksOf_data_flatten s hs data.length data le_rfl 0
  rw [reconstructZipFromChunks, hfilter, parseAll_map_chunk chunks hname]
  dsimp only
  rw [sortKeyed_eq_self_of_ascending _ hasc, hflat]
  simp

lemma jsSubarray_coe (buf : List Nat) (a b : Nat) :
    jsSubarray buf (a : Int) (b : Int) = (buf.take b).drop a := by
  rw [jsSubarray]
  have ha : ¬ ((a : Int) < 0) := by omega
  have hb : ¬ ((b : Int) < 0) := by omega
  rw [if_neg ha, if_neg hb]
  have hma : (min (a : Int) (buf.length : Int)).toNat = min a buf.length := by omega
  have hmb : (min (b : Int) (buf.length : Int)).toNat = min b buf.length := by omega
  rw [hma, hmb]
  by_cases hbl : b ≤ buf.length
  · rw [min_eq_left hbl]
    by_cases hal : a ≤ buf.length
    · rw [min_eq_left hal]
    · rw [min_eq_right (le_of_not_le hal),
        List.drop_eq_nil_of_le (by rw [List.length_take]; omega),
        List.drop_eq_nil_of_le (by rw [List.length_take]; omega)]
  · rw [min_eq_right (le_of_not_le hbl), List.take_of_length_le (le_of_not_le hbl),
      List.take_of_length_le le_rfl]
    by_cases hal : a ≤ buf.length
    · rw [min_eq_left hal]
    · rw [min_eq_right (le_of_not_le hal),
        List.drop_eq_nil_of_le (le_of_not_le hal), List.drop_eq_nil_of_le le_rfl]

lemma createChunksGo_eq_chunksOf (s : Nat) (hs : 0 < s) (buffer : List Nat) :
    ∀ (fuel offset idx : Nat), buffer.length - offset < fuel →
      createChunksGo buffer (buffer.length : Int) (s : Int) (offset : Int) idx fuel
        = some (chunksOf s (buffer.drop offset) idx) := by
  intro fuel
  induction fuel with
  | zero => intro offset idx h; omega
  | succ f ih =>
    intro offset idx h
    by_cases hlt : offset < buffer.length
    · have hcn1 : 1 ≤ min s (buffer.length - offset) := by omega
      have hmin : min (s : Int) ((buffer.length : Int) - (offset : Int))
          = ((min s (buffer.length - offset) : Nat) : Int) := by omega
      have hoffcn : (offset : Int) + ((min s (buffer.length - offset) : Nat) : Int)
          = ((offset + min s (buffer.length - offset) : Nat) : Int) := by omega
      have hsub : jsSubarray buffer (offset : Int)
            (((offset + min s (buffer.length - offset) : Nat) : Int))
          = (buffer.drop offset).take s := by
        rw [jsSubarray_coe, ← List.take_drop]
        by_cases hsl : s ≤ buffer.length - offset
        · rw [min_eq_left hsl]
        · have h1 : (buffer.drop offset).length ≤ min s (buffer.length - offset) := by
            rw [List.length_drop]
            omega
          have h2 : (buffer.drop offset).length ≤ s := by
            rw [List.length_drop]
            omega
          rw [List.take_of_length_le h1, List.take_of_length_le h2]
      have hsz : ((min s (buffer.length - offset) : Nat) : Int)
          = (((buffer.drop offset).take s).length : Int) := by
        rw [List.length_take, List.length_drop]
      have hdrop2 : buffer.drop (offset + min s (buffer.length - offset))
          = (buffer.drop offset).drop s := by
        rw [List.drop_drop]
        by_cases hsl : s ≤ buffer.length - offset
        · rw [min_eq_left hsl]
        · rw [min_eq_right (le_of_not_le hsl),
            List.drop_eq_nil_of_le (by omega), List.drop_eq_nil_of_le (by omega)]
      have hrec := ih (offset + min s (buffer.length - offset)) (idx + 1) (by omega)
      have hRHS : chunksOf s (buffer.drop offset) idx
          = { index := idx, filename := chunkFilename idx,
              size := ((((buffer.drop offset).take s)).length : Int),
              checksum := md5 ((buffer.drop offset).take s),
              data := (buffer.drop offset).take s }
            :: chunksOf s ((buffer.drop offset).drop s) (idx + 1) := by
        rw [chunksOf, dif_pos ⟨hs, by rw [ne_eq, List.drop_eq_nil_iff]; omega⟩]
      rw [createChunksGo, if_pos (show (offset : Int) < (buffer.length : Int) from
        by exact_mod_cast hlt)]
      dsimp only
      rw [hmin, hoffcn, hrec, hdrop2]
      dsimp only
      rw [hsub, hsz, hRHS]
    · rw [createChunksGo, if_neg (by exact_mod_cast hlt),
        List.drop_eq_nil_of_le (by omega), chunksOf, dif_neg (by simp)]

/-- With a non-positive chunk size and a non-empty buffer the source's
chunking loop never terminates: `Math.min(chunkSize, remainingBytes)` is then
non-positive, so `offset` never advances past `totalSize`. -/
lemma createChunksGo_none_of_nonpos (buffer : List Nat) (cs : Int) (hcs : cs ≤ 0)
    (hlen : 0 < (buffer.length : Int)) :
    ∀ (fuel : Nat) (offset : Int), offset ≤ 0 → ∀ idx,
      createChunksGo buffer (buffer.length : Int) cs offset idx fuel = none := by
  intro fuel
  induction fuel with
  | zero => intro offset _ idx; rfl
  | succ f ih =>
    intro offset hoff idx
    rw [createChunksGo, if_pos (by omega)]
    dsimp only
    rw [ih (offset + min cs ((buffer.length : Int) - offset)) (by
      have := min_le_left cs ((buffer.length : Int) - offset)
      omega) (idx + 1)]

/-- Counting fold of `verifyChunkIntegrity` when every record's checksum
matches the re-hash (which is always the case, see
`verifyChunkIntegrity_always_valid`). -/
lemma verify_foldl_all_match (files : List (List Char × List Nat)) :
    ∀ (l : List DetailChunk) (v i : Nat),
      (∀ c ∈ l, md5 ((readDirFile files c.filename).getD []) = c.checksum) →
      l.foldl (fun (acc : Nat × Nat) c =>
          if md5 ((readDirFile files c.filename).getD []) = c.checksum
          then (acc.1 + 1, acc.2) else (acc.1, acc.2 + 1)) (v, i)
        = (v + l.length, i) := by
  intro l
  induction l with
  | nil => intro v i _; rfl
  | cons c cs ih =>
    intro v i h
    rw [List.foldl_cons, if_pos (h c (List.mem_cons_self _ _)),
      ih (v + 1) i (fun x hx => h x (List.mem_cons_of_mem _ hx)), List.length_cons]
    ring_nf

/-- Whatever the current bytes of the chunk files are, `verifyChunkIntegrity`
reports every chunk as valid: the checksum it compares against was itself
computed from the same current bytes by `getChunkSetDetails`, not taken from
the manifest recorded at split time. -/
lemma verifyChunkIntegrity_always_valid (files : List (List Char × List Nat))
    (chunks : List DetailChunk)
    (h : getChunkSetDetails (some files) = Except.ok chunks) :
    verifyChunkIntegrity (some files)
      = Except.ok { totalChunks := chunks.length, validChunks := chunks.length,
                    invalidChunks := 0, isValid := true } := by
  have hsum : ∀ c ∈ chunks, md5 ((readDirFile files c.filename).getD []) = c.checksum := by
    rcases hp : parseAll (files.filter (fun f => isChunkFileName f.1)) with _ | keyed
    · rw [getChunkSetDetails, hp] at h
      exact absurd h (by simp)
    · rw [getChunkSetDetails, hp] at h
      dsimp only at h
      have hchunks := Except.ok.inj h
      subst hchunks
      intro c hc
      rcases List.mem_map.mp hc with ⟨kf, _, rfl⟩
      rfl
  rw [verifyChunkIntegrity, h]
  dsimp only
  rw [verify_foldl_all_match files chunks 0 0 hsum]
  simp

lemma orElse_fun_none {α : Type} (x : Option α) : (x.orElse fun _ => none) = x := by
  cases x <;> rfl

lemma mergeRecords_empty (upd : JobRecord) : mergeRecords emptyRecord upd = upd := by
  cases upd
  simp [mergeRecords, emptyRecord, orElse_fun_none]

lemma updateProgress_status_of_some (cur upd : JobRecord) (now : Nat) (s : String)
    (h : upd.status = some s) : (updateProgress (some cur) upd now).status = some s := by
  simp [updateProgress, mergeRecords, h, Option.orElse]

/-- Normal completion of the batch loop: as long as no status read before a
batch is `"PAUSED"`, every batch is fetched. -/
lemma fetchBatchesGo_ok (statusAt : Nat → Option String) :
    ∀ (r done : Nat), (∀ i, done ≤ i → i < done + r → statusAt i ≠ some "PAUSED") →
      fetchBatchesGo statusAt done r = Except.ok (done + r) := by
  intro r
  induction r with
  | zero => intro done _; rfl
  | succ f ih =>
    intro done h
    rw [fetchBatchesGo]
    rcases hst : statusAt done with _ | s
    · dsimp only
      rw [ih (done + 1) (fun i h1 h2 => h i (by omega) (by omega)),
        show done + 1 + f = done + (f + 1) from by omega]
    · dsimp only
      rw [if_neg (by
          intro hps
          subst hps
          exact h done le_rfl (by omega) hst),
        ih (done + 1) (fun i h1 h2 => h i (by omega) (by omega)),
        show done + 1 + f = done + (f + 1) from by omega]

/-- A `"PAUSED"` status read before batch `i` makes the loop throw, provided
no earlier read already paused it. -/
lemma fetchBatchesGo_pause (statusAt : Nat → Option String) :
    ∀ (r done i : Nat), done ≤ i → i < done + r → statusAt i = some "PAUSED" →
      (∀ j, done ≤ j → j < i → statusAt j ≠ some "PAUSED") →
      fetchBatchesGo statusAt done r = Except.error "Download paused by user" := by
  intro r
  induction r with
  | zero => intro done i h1 h2; omega
  | succ f ih =>
    intro done i h1 h2 hp hj
    rw [fetchBatchesGo]
    by_cases hdi : done = i
    · subst hdi
      rw [hp]
      dsimp only
      rw [if_pos rfl]
    · rcases hst : statusAt done with _ | s
      · dsimp only
        exact ih (done + 1) i (by omega) (by omega) hp
          (fun j hj1 hj2 => hj j (by omega) hj2)
      · dsimp only
        rw [if_neg (by
            intro hps
            subst hps
            exact hj done le_rfl (by omega) hst)]
        exact ih (done + 1) i (by omega) (by omega) hp
          (fun j hj1 hj2 => hj j (by omega) hj2)

lemma chunksOf_nil (s : Nat) (idx : Nat) : chunksOf s [] idx = [] := by
  rw [chunksOf, dif_neg (by simp)]

lemma chunksOf_ne_nil (s : Nat) (hs : 0 < s) (data : List Nat) (hd : data ≠ [])
    (idx : Nat) : chunksOf s data idx ≠ [] := by
  rw [chunksOf, dif_pos ⟨hs, hd⟩]
  exact List.cons_ne_nil _ _

lemma chunksOf_dropLast_size (s : Nat) (hs : 0 < s) :
    ∀ (n : Nat) (data : List Nat), data.length ≤ n → ∀ idx,
      ∀ c ∈ (chunksOf s data idx).dropLast, c.size = (s : Int) := by
  intro n
  induction n with
  | zero =>
    intro data hlen idx
    obtain rfl : data = [] := List.length_eq_zero.mp (Nat.le_zero.mp hlen)
    rw [chunksOf_nil]
    intro c hc
    exact absurd hc (List.not_mem_nil c)
  | succ m ih =>
    intro data hlen idx
    by_cases hd : data = []
    · subst hd
      rw [chunksOf_nil]
      intro c hc
      exact absurd hc (List.not_mem_nil c)
    · rw [chunksOf, dif_pos ⟨hs, hd⟩]
      by_cases hrest : data.drop s = []
      · rw [hrest, chunksOf_nil]
        intro c hc
        exact absurd hc (List.not_mem_nil c)
      · rw [List.dropLast_cons_of_ne_nil
          (chunksOf_ne_nil s hs (data.drop s) hrest (idx + 1))]
        intro c hc
        rcases List.mem_cons.mp hc with rfl | hc
        · have hlong : s < data.length := by
            have := List.drop_eq_nil_iff.not.mp hrest
            omega
          dsimp only
          rw [List.length_take]
          congr 1
          omega
        · exact ih (data.drop s) (by
            rw [List.length_drop]
            have : 0 < data.length := List.length_pos.mpr hd
            omega) (idx + 1) c hc

lemma getLast?_cons_of_ne_nil {α : Type} (a : α) (l : List α) (h : l ≠ []) :
    (a :: l).getLast? = l.getLast? := by
  cases l with
  | nil => exact absurd rfl h
  | cons b bs => exact List.getLast?_cons_cons

lemma chunksOf_getLast_size (s : Nat) (hs : 0 < s) :
    ∀ (n : Nat) (data : List Nat), data.length ≤ n → data ≠ [] → ∀ idx,
      ((chunksOf s data idx).getLast?).map (fun c => c.size)
        = some (if data.length % s = 0 then (s : Int) else ((data.length % s : Nat) : Int)) := by
  intro n
  induction n with
  | zero =>
    intro data hlen hd idx
    exact absurd (List.length_eq_zero.mp (Nat.le_zero.mp hlen)) hd
  | succ m ih =>
    intro data hlen hd idx
    have hpos : 0 < data.length := List.length_pos.mpr hd
    rw [chunksOf, dif_pos ⟨hs, hd⟩]
    by_cases hrest : data.drop s = []
    · have hle : data.length ≤ s := by
        have := List.drop_eq_nil_iff.mp hrest
        omega
      rw [hrest, chunksOf_nil, List.getLast?_singleton, Option.map_some']
      congr 1
      dsimp only
      rw [List.length_take]
      by_cases heq : data.length = s
      · rw [heq, Nat.mod_self, if_pos rfl]
        congr 1
        omega
      · rw [Nat.mod_eq_of_lt (by omega), if_neg (by omega)]
        congr 1
        omega
    · have hlong : s < data.length := by
        have := List.drop_eq_nil_iff.not.mp hrest
        omega
      rw [getLast?_cons_of_ne_nil _ _ (chunksOf_ne_nil s hs (data.drop s) hrest (idx + 1)),
        ih (data.drop s) (by rw [List.length_drop]; omega) hrest (idx + 1),
        List.length_drop, ← Nat.mod_eq_sub_mod (by omega : data.length ≥ s)]

lemma take_replicate {α : Type} (a : α) :
    ∀ (n m : Nat), (List.replicate m a).take n = List.replicate (min n m) a := by
  intro n
  induction n with
  | zero => intro m; simp
  | succ k ih =>
    intro m
    cases m with
    | zero => simp
    | succ l =>
      rw [List.replicate_succ, List.take_succ_cons, ih l, Nat.succ_min_succ,
        List.replicate_succ]

lemma drop_replicate {α : Type} (a : α) :
    ∀ (n m : Nat), (List.replicate m a).drop n = List.replicate (m - n) a := by
  intro n
  induction n with
  | zero => intro m; simp
  | succ k ih =>
    intro m
    cases m with
    | zero => simp
    | succ l =>
      rw [List.replicate_succ, List.drop_succ_cons, ih l, Nat.succ_sub_succ]

/-- One unfolding of the chunking loop on an all-zero buffer, used to settle
the 5,000,000-byte scenario without materialising the buffer. -/
lemma chunksOf_replicate_step (s m idx : Nat) (hs : 0 < s) (hm : m ≠ 0) :
    chunksOf s (List.replicate m (0 : Nat)) idx
      = { index := idx, filename := chunkFilename idx, size := ((min s m : Nat) : Int),
          checksum := md5 (List.replicate (min s m) 0),
          data := List.replicate (min s m) 0 }
        :: chunksOf s (List.replicate (m - s) 0) (idx + 1) := by
  rw [chunksOf, dif_pos ⟨hs, by simp [hm]⟩, take_replicate, drop_replicate,
    List.length_replicate]

/-! ### Tile geometry: monotonicity of the slippy-map projection. -/

lemma jsShl1_of_le_30 (z : Nat) (hz : z ≤ 30) : jsShl1 z = 2 ^ z := by
  rw [jsShl1, Nat.mod_eq_of_lt (by omega), if_neg (by omega)]

lemma jsShl1_pos_of_le_30 (z : Nat) (hz : z ≤ 30) : 0 < jsShl1 z := by
  rw [jsShl1_of_le_30 z hz]
  positivity

/-- Monotonicity of `tan + sec` on `(-π/2, π/2)`, the analytic heart of the
Mercator tile-row computation:
`(sin x + 1) * cos y ≤ (sin y + 1) * cos x` reduces, via sum-to-product, to
`0 ≤ 2 sin u (cos u + sin v)` with `u = (y-x)/2`, `v = (y+x)/2`, and
`cos u + sin v = sin (π/2 - u) + sin v > 0` because `v > u - π/2` (both in
the range where `sin` is strictly monotone). -/
lemma tanAddSec_le_tanAddSec {x y : ℝ} (hx : -(Real.pi / 2) < x) (hy : y < Real.pi / 2)
    (hxy : x ≤ y) :
    Real.tan x + 1 / Real.cos x ≤ Real.tan y + 1 / Real.cos y := by
  rcases eq_or_lt_of_le hxy with rfl | hlt
  · exact le_rfl
  · have hx2 : x < Real.pi / 2 := lt_trans hlt hy
    have hy1 : -(Real.pi / 2) < y := lt_trans hx hlt
    have hcx : 0 < Real.cos x := Real.cos_pos_of_mem_Ioo ⟨hx, hx2⟩
    have hcy : 0 < Real.cos y := Real.cos_pos_of_mem_Ioo ⟨hy1, hy⟩
    rw [Real.tan_eq_sin_div_cos, Real.tan_eq_sin_div_cos, div_add_div_same,
      div_add_div_same, div_le_div_iff hcx hcy]
    have hpi : 0 < Real.pi := Real.pi_pos
    have key : Real.cos y - Real.cos x ≤ Real.sin (y - x) := by
      have h1 : Real.cos y - Real.cos x
          = -2 * Real.sin ((y + x) / 2) * Real.sin ((y - x) / 2) := Real.cos_sub_cos y x
      have h2 : Real.sin (y - x)
          = 2 * Real.sin ((y - x) / 2) * Real.cos ((y - x) / 2) := by
        rw [← Real.sin_two_mul]
        ring_nf
      have hu1 : 0 < (y - x) / 2 := by linarith
      have hu2 : (y - x) / 2 < Real.pi / 2 := by linarith
      have hv1 : -(Real.pi / 2) < (y + x) / 2 := by linarith
      have hv2 : (y + x) / 2 < Real.pi / 2 := by linarith
      have hsinu : 0 < Real.sin ((y - x) / 2) :=
        Real.sin_pos_of_pos_of_lt_pi hu1 (by linarith)
      have h3 : Real.sin ((y - x) / 2 - Real.pi / 2) < Real.sin ((y + x) / 2) := by
        apply Real.strictMonoOn_sin
        · exact Set.mem_Icc.mpr ⟨by linarith, by linarith⟩
        · exact Set.mem_Icc.mpr ⟨by linarith, by linarith⟩
        · linarith
      rw [Real.sin_sub_pi_div_two] at h3
      nlinarith [hsinu, h3]
    have hsin : Real.sin (y - x) = Real.sin y * Real.cos x - Real.cos y * Real.sin x :=
      Real.sin_sub y x
    nlinarith [key, hsin]

lemma tanAddSec_pos {x : ℝ} (hx1 : -(Real.pi / 2) < x) (hx2 : x < Real.pi / 2) :
    0 < Real.tan x + 1 / Real.cos x := by
  have hcx : 0 < Real.cos x := Real.cos_pos_of_mem_Ioo ⟨hx1, hx2⟩
  rw [Real.tan_eq_sin_div_cos, div_add_div_same]
  apply div_pos _ hcx
  have h1 : Real.sin (-(Real.pi / 2)) < Real.sin x := by
    apply Real.strictMonoOn_sin
    · exact Set.mem_Icc.mpr ⟨le_rfl, by linarith [Real.pi_pos]⟩
    · exact Set.mem_Icc.mpr ⟨by linarith, by linarith⟩
    · exact hx1
  rw [Real.sin_neg, Real.sin_pi_div_two] at h1
  linarith

/-- A latitude strictly inside `(-90, 90)` lands strictly inside
`(-π/2, π/2)` after conversion to radians. -/
lemma lat_rad_mem {lat : ℝ} (h1 : -90 < lat) (h2 : lat < 90) :
    -(Real.pi / 2) < lat * Real.pi / 180 ∧ lat * Real.pi / 180 < Real.pi / 2 := by
  have hpi : 0 < Real.pi := Real.pi_pos
  have ha : (-90 : ℝ) * Real.pi < lat * Real.pi := mul_lt_mul_of_pos_right h1 hpi
  have hb : lat * Real.pi < 90 * Real.pi := mul_lt_mul_of_pos_right h2 hpi
  constructor
  · linarith
  · linarith

/-- Tile columns grow (weakly) with longitude at any zoom whose shift does
not overflow. -/
lemma longitudeToTileX_mono {lng1 lng2 : ℝ} (h : lng1 ≤ lng2) (z : Nat) (hz : z ≤ 30) :
    longitudeToTileX lng1 z ≤ longitudeToTileX lng2 z := by
  apply Int.floor_le_floor
  apply mul_le_mul_of_nonneg_right
  · linarith
  · rw [jsShl1_of_le_30 z hz]
    positivity

/-- Tile rows grow (weakly) as latitude decreases — the Mercator fraction is
antitone on `(-90, 90)` — at any zoom whose shift does not overflow. -/
lemma latitudeToTileY_antitone {lat1 lat2 : ℝ} (hb1 : -90 < lat1) (hb2 : lat2 < 90)
    (h : lat1 ≤ lat2) (z : Nat) (hz : z ≤ 30) :
    latitudeToTileY lat2 z ≤ latitudeToTileY lat1 z := by
  have h1 := lat_rad_mem hb1 (by linarith : lat1 < 90)
  have h2 := lat_rad_mem (by linarith : (-90 : ℝ) < lat2) hb2
  have hg : Real.tan (lat1 * Real.pi / 180) + 1 / Real.cos (lat1 * Real.pi / 180)
      ≤ Real.tan (lat2 * Real.pi / 180) + 1 / Real.cos (lat2 * Real.pi / 180) := by
    apply tanAddSec_le_tanAddSec h1.1 h2.2
    have hpi : 0 < Real.pi := Real.pi_pos
    have := mul_le_mul_of_nonneg_right h (le_of_lt hpi)
    linarith
  have hgpos : 0 < Real.tan (lat1 * Real.pi / 180) + 1 / Real.cos (lat1 * Real.pi / 180) :=
    tanAddSec_pos h1.1 h1.2
  have hlog : Real.log (Real.tan (lat1 * Real.pi / 180) + 1 / Real.cos (lat1 * Real.pi / 180))
      ≤ Real.log (Real.tan (lat2 * Real.pi / 180) + 1 / Real.cos (lat2 * Real.pi / 180)) :=
    Real.log_le_log hgpos hg
  apply Int.floor_le_floor
  apply mul_le_mul_of_nonneg_right
  · have hpi : 0 < Real.pi := Real.pi_pos
    have hd : Real.log (Real.tan (lat1 * Real.pi / 180) + 1 / Real.cos (lat1 * Real.pi / 180))
          / Real.pi
        ≤ Real.log (Real.tan (lat2 * Real.pi / 180) + 1 / Real.cos (lat2 * Real.pi / 180))
          / Real.pi := (div_le_div_right hpi).mpr hlog
    linarith
  · rw [jsShl1_of_le_30 z hz]
    positivity

/-- The zoom loop of `calculateTileCount` is the sum over the inclusive range
`[minZoom, maxZoom]`. -/
lemma calculateTileCount_eq_Icc_sum (b : GeoBounds) (minZoom maxZoom : Nat) :
    calculateTileCount b minZoom maxZoom
      = ∑ z in Finset.Icc minZoom maxZoom,
          (longitudeToTileX b.northeast.longitude z
              - longitudeToTileX b.southwest.longitude z + 1)
          * (latitudeToTileY b.southwest.latitude z
              - latitudeToTileY b.northeast.latitude z + 1) := by
  rw [calculateTileCount, Nat.Icc_eq_range']
  rfl

lemma calculateTileCount_degenerate (b : GeoBounds) (minZoom maxZoom : Nat)
    (h : maxZoom < minZoom) : calculateTileCount b minZoom maxZoom = 0 := by
  rw [calculateTileCount, show maxZoom + 1 - minZoom = 0 from by omega]
  rfl

lemma calculateTileCount_pos (b : GeoBounds) (minZoom maxZoom : Nat)
    (hlat : b.southwest.latitude < b.northeast.latitude)
    (hlng : b.southwest.longitude < b.northeast.longitude)
    (hlat1 : -90 < b.southwest.latitude) (hlat2 : b.northeast.latitude < 90)
    (hz : minZoom ≤ maxZoom) (hz30 : maxZoom ≤ 30) :
    0 < calculateTileCount b minZoom maxZoom := by
  rw [calculateTileCount_eq_Icc_sum]
  have hterm : ∀ z ∈ Finset.Icc minZoom maxZoom,
      (1 : Int) ≤ (longitudeToTileX b.northeast.longitude z
          - longitudeToTileX b.southwest.longitude z + 1)
        * (latitudeToTileY b.southwest.latitude z
          - latitudeToTileY b.northeast.latitude z + 1) := by
    intro z hzm
    have h30 : z ≤ 30 := le_trans (Finset.mem_Icc.mp hzm).2 hz30
    have hX := longitudeToTileX_mono (le_of_lt hlng) z h30
    have hY := latitudeToTileY_antitone hlat1 hlat2 (le_of_lt hlat) z h30
    nlinarith [hX, hY]
  have hcard := Finset.card_nsmul_le_sum (Finset.Icc minZoom maxZoom) _ _ hterm
  rw [Nat.card_Icc] at hcard
  have : 1 ≤ maxZoom + 1 - minZoom := by omega
  calc (0 : Int) < ((maxZoom + 1 - minZoom : Nat) : Int) := by exact_mod_cast this
    _ = (maxZoom + 1 - minZoom) • (1 : Int) := by simp
    _ ≤ _ := hcard

/-- The chunking loop never returns on this input, whatever the iteration
budget: the claim-level description of the non-terminating runs of
`createChunks`. -/
def neverReturns (d : List Nat) (cs : Int) : Prop :=
  ∀ fuel, createChunks d cs fuel = none

/-! ## Claims -/

/-- C1: for every byte sequence `d` (including the empty one) and every chunk
size `s > 0`, the source's chunking loop returns (ample fuel suffices) the
chunk list `chunksOf s d 0`; reconstructing from the directory holding
exactly the chunk files it wrote returns `d` byte-exact, using one chunk per
file; and the recorded chunk sizes sum to `d`'s length. -/
theorem split_reconstruct_roundtrip (d : List Nat) (s : Nat) (hs : 0 < s) :
    createChunks d (s : Int) (d.length + 1) = some (chunksOf s d 0)
  ∧ reconstructZipFromChunks
      (some ((chunksOf s d 0).map (fun c => (c.filename, c.data))))
      = Except.ok (d, (chunksOf s d 0).length)
  ∧ ((chunksOf s d 0).map (fun c => c.size)).sum = (d.length : Int) := by
  refine ⟨?_, reconstruct_chunksOf s hs d, chunksOf_sum_size s hs d.length d le_rfl 0⟩
  have h := createChunksGo_eq_chunksOf s hs d (d.length + 1) 0 0 (by omega)
  rw [createChunks]
  simpa using h

/-- Witness for C1 at `d = [5, 6, 7]`, `s = 2`. -/
theorem split_reconstruct_roundtrip_witness :
    reconstructZipFromChunks
        (some ((chunksOf 2 [5, 6, 7] 0).map (fun c => (c.filename, c.data))))
      = Except.ok ([5, 6, 7], (chunksOf 2 [5, 6, 7] 0).length) :=
  (split_reconstruct_roundtrip [5, 6, 7] 2 (by norm_num)).2.1

/-- C2 (code bug, evaluated at the failing input): splitting `[10, 20, 30]`
with chunk size 2 records checksums `md5 [10, 20]` and `md5 [30]`; after the
first chunk's file is corrupted to `[10, 21]` — whose digest differs from the
recorded one — `verifyChunkIntegrity` still reports both chunks valid and
`invalidCount = 0`, because the reference checksum it compares against is
recomputed by `getChunkSetDetails` from the same current bytes instead of
being taken from the manifest recorded at split time. -/
theorem verify_reports_corrupted_chunk_valid :
    createChunks [10, 20, 30] 2 4
        = some [{ index := 0, filename := chunkFilename 0, size := 2,
                  checksum := md5 [10, 20], data := [10, 20] },
                { index := 1, filename := chunkFilename 1, size := 1,
                  checksum := md5 [30], data := [30] }]
  ∧ md5 [10, 21] ≠ md5 [10, 20]
  ∧ verifyChunkIntegrity (some [(chunkFilename 0, [10, 21]), (chunkFilename 1, [30])])
      = Except.ok { totalChunks := 2, validChunks := 2, invalidChunks := 0,
                    isValid := true } :=
  ⟨rfl, by decide, rfl⟩

/-- C3 (amended): `updateProgress` performs no transition validation at all:
it merges the supplied fields over the stored record (an empty object when no
record exists) and recomputes `updatedAt`; in particular an update naming a
new status is applied even when the stored status is terminal (COMPLETED or
ERROR), and no `InvalidTransition` rejection exists anywhere in the code. -/
theorem updateProgress_no_validation :
    (∀ (file : Option JobRecord) (upd : JobRecord) (now : Nat),
        updateProgress file upd now
          = { mergeRecords (file.getD emptyRecord) upd with updatedAt := some now })
  ∧ (∀ (cur upd : JobRecord) (now : Nat) (s : String),
        cur.status = some "COMPLETED" ∨ cur.status = some "ERROR" →
        upd.status = some s →
        (updateProgress (some cur) upd now).status = some s) := by
  constructor
  · intro file upd now
    rfl
  · intro cur upd now s _ h
    exact updateProgress_status_of_some cur upd now s h

/-- Witness for C3 (amended): an update from a COMPLETED record is applied. -/
theorem updateProgress_no_validation_witness :
    (updateProgress (some { emptyRecord with status := some "COMPLETED" })
        { emptyRecord with status := some "DOWNLOADING" } 5).status
      = some "DOWNLOADING" :=
  updateProgress_no_validation.2 _ _ 5 "DOWNLOADING" (Or.inl rfl) rfl

/-- C3 (counterexample): a transition attempt out of the terminal COMPLETED
state is not a no-op and is not rejected — the stored status becomes
DOWNLOADING. -/
theorem transition_from_terminal_not_rejected :
    (updateProgress
        (some { emptyRecord with status := some "COMPLETED", progress := some 100 })
        { emptyRecord with status := some "DOWNLOADING" } 5).status = some "DOWNLOADING"
  ∧ (some "DOWNLOADING" : Option String) ≠ some "COMPLETED" :=
  ⟨rfl, by decide⟩

/-- C4 (amended): before each batch the fetcher reads the job's stored
status; as long as no read returns PAUSED the loop fetches every batch — a
CANCELLED status is not consulted and does not stop it — and the first
PAUSED read makes the loop stop by throwing `Error("Download paused by
user")`, which propagates to the caller rather than returning normally. -/
theorem fetch_pause_throws_cancel_ignored :
    (∀ (statusAt : Nat → Option String) (n : Nat),
        (∀ i, i < n → statusAt i ≠ some "PAUSED") →
        fetchBatches statusAt n = Except.ok n)
  ∧ (∀ (statusAt : Nat → Option String) (n i : Nat),
        i < n → statusAt i = some "PAUSED" →
        (∀ j, j < i → statusAt j ≠ some "PAUSED") →
        fetchBatches statusAt n = Except.error "Download paused by user") := by
  constructor
  · intro st n h
    have hgo := fetchBatchesGo_ok st n 0 (fun i _ h2 => h i (by omega))
    simpa [fetchBatches] using hgo
  · intro st n i hin hp hj
    exact fetchBatchesGo_pause st n 0 i (by omega) (by omega) hp (fun j _ h2 => hj j h2)

/-- Witness for C4 (amended): a job whose status reads CANCELLED before every
batch still has all batches fetched. -/
theorem fetch_pause_throws_cancel_ignored_witness :
    fetchBatches (fun _ => some "CANCELLED") 2 = Except.ok 2 :=
  fetch_pause_throws_cancel_ignored.1 _ 2 (fun i _ => by decide)

/-- C4 (counterexample): with the status at PAUSED the loop raises an error
instead of returning control normally, and with the status at CANCELLED it
keeps issuing all batches instead of stopping. -/
theorem fetch_loop_pause_counterexample :
    fetchBatches (fun _ => some "PAUSED") 1 = Except.error "Download paused by user"
  ∧ fetchBatches (fun _ => some "CANCELLED") 3 = Except.ok 3 :=
  ⟨rfl, rfl⟩

/-- C5: for every non-empty input and chunk size `s > 0`, the loop (fuelled
model included) produces chunks in which every chunk but the last has size
exactly `s` and the last has size `totalSize mod s` (the full `s` when
evenly divisible); splitting a 5,000,000-byte input with `s = 2,097,152`
yields exactly the sizes `[2097152, 2097152, 805696]`. -/
theorem chunk_sizes_spec :
    (∀ (d : List Nat) (s : Nat), 0 < s → d ≠ [] →
        createChunks d (s : Int) (d.length + 1) = some (chunksOf s d 0)
      ∧ (∀ c ∈ (chunksOf s d 0).dropLast, c.size = (s : Int))
      ∧ ((chunksOf s d 0).getLast?).map (fun c => c.size)
          = some (if d.length % s = 0 then (s : Int) else ((d.length % s : Nat) : Int)))
  ∧ ((chunksOf 2097152 (List.replicate 5000000 0) 0).map (fun c => c.size)
      = [2097152, 2097152, 805696]) := by
  constructor
  · intro d s hs hd
    refine ⟨?_, chunksOf_dropLast_size s hs d.length d le_rfl 0,
      chunksOf_getLast_size s hs d.length d le_rfl hd 0⟩
    have h := createChunksGo_eq_chunksOf s hs d (d.length + 1) 0 0 (by omega)
    rw [createChunks]
    simpa using h
  · rw [chunksOf_replicate_step 2097152 5000000 0 (by norm_num) (by norm_num),
      show (5000000 - 2097152 : Nat) = 2902848 from by norm_num,
      chunksOf_replicate_step 2097152 2902848 1 (by norm_num) (by norm_num),
      show (2902848 - 2097152 : Nat) = 805696 from by norm_num,
      chunksOf_replicate_step 2097152 805696 2 (by norm_num) (by norm_num),
      show (805696 - 2097152 : Nat) = 0 from by norm_num,
      show List.replicate 0 (0 : Nat) = [] from rfl, chunksOf_nil,
      show min 2097152 5000000 = 2097152 from by norm_num,
      show min 2097152 2902848 = 2097152 from by norm_num,
      show min 2097152 805696 = 805696 from by norm_num]
    rfl

/-- Witness for C5 at `d = [1, 2, 3]`, `s = 2` (two chunks; `3 mod 2 = 1`). -/
theorem chunk_sizes_spec_witness :
    (∀ c ∈ (chunksOf 2 [1, 2, 3] 0).dropLast, c.size = (2 : Int))
  ∧ ((chunksOf 2 [1, 2, 3] 0).getLast?).map (fun c => c.size)
      = some (if ([1, 2, 3] : List Nat).length % 2 = 0 then (2 : Int)
              else ((([1, 2, 3] : List Nat).length % 2 : Nat) : Int)) :=
  ⟨(chunk_sizes_spec.1 [1, 2, 3] 2 (by norm_num) (by decide)).2.1,
   (chunk_sizes_spec.1 [1, 2, 3] 2 (by norm_num) (by decide)).2.2⟩

/-- C6 (amended): `createChunks` never validates the chunk size.  For
zero-length data it returns zero chunks whatever the chunk size is —
including non-positive ones, where the claimed `InvalidArgument` failure
should occur — and for non-empty data with a non-positive chunk size the
chunking loop simply never terminates: no error is surfaced and no chunk
list is ever returned. -/
theorem createChunks_no_chunkSize_validation :
    (∀ (cs : Int) (fuel : Nat), 1 ≤ fuel → createChunks [] cs fuel = some [])
  ∧ (∀ (d : List Nat) (cs : Int), d ≠ [] → cs ≤ 0 → neverReturns d cs) := by
  constructor
  · intro cs fuel h
    obtain ⟨f, rfl⟩ : ∃ f, fuel = f + 1 := ⟨fuel - 1, by omega⟩
    rw [createChunks, createChunksGo, if_neg (by simp)]
  · intro d cs hd hcs fuel
    rw [createChunks]
    exact createChunksGo_none_of_nonpos d cs hcs
      (by exact_mod_cast List.length_pos.mpr hd) fuel 0 le_rfl 0

/-- Witness for C6 (amended): chunk size `-5` returns zero chunks on empty
data, and diverges (no result at fuel 3, as at any fuel) on `[1]`. -/
theorem createChunks_no_chunkSize_validation_witness :
    createChunks [] (-5) 1 = some [] ∧ createChunks [1] (-5) 3 = none :=
  ⟨createChunks_no_chunkSize_validation.1 (-5) 1 (by norm_num),
   createChunks_no_chunkSize_validation.2 [1] (-5) (by decide) (by norm_num) 3⟩

/-- C6 (counterexample): at `chunkSize = -5` on empty data the source
returns normally with zero chunks — no `InvalidArgument` error exists — and
at `chunkSize = 0` on `[1]` it diverges instead of failing fast. -/
theorem chunkSize_nonpos_not_rejected :
    createChunks [] (-5) 1 = some [] ∧ neverReturns [1] 0 := by
  refine ⟨rfl, fun fuel => ?_⟩
  rw [createChunks]
  exact createChunksGo_none_of_nonpos [1] 0 le_rfl (by norm_num) fuel 0 le_rfl 0

/-- C7 (amended): `reconstructZipFromChunks` fails (with the thrown error
`"Chunk directory not found"`) only when the chunk directory does not exist;
when the directory exists but holds no chunk files it returns a successful
zero-byte result with `chunksUsed = 0`; and it consults no checksum
anywhere. -/
theorem reconstruct_missing_vs_empty :
    reconstructZipFromChunks none = Except.error "Chunk directory not found"
  ∧ (∀ files, files.filter (fun f => isChunkFileName f.1) = [] →
      reconstructZipFromChunks (some files) = Except.ok ([], 0)) := by
  refine ⟨rfl, fun files hf => ?_⟩
  rw [reconstructZipFromChunks, hf]
  rfl

/-- Witness for C7 (amended): a directory containing only a non-chunk file
reconstructs to a successful zero-byte result. -/
theorem reconstruct_missing_vs_empty_witness :
    reconstructZipFromChunks (some [(".keep".toList, [7])]) = Except.ok ([], 0) :=
  reconstruct_missing_vs_empty.2 [(".keep".toList, [7])] (by decide)

/-- C7 (counterexample): an existing but empty chunk directory does not fail
with a missing-chunk error — reconstruction succeeds with a zero-byte
result. -/
theorem empty_dir_reconstructs_successfully :
    reconstructZipFromChunks (some []) = Except.ok ([], 0) :=
  rfl

/-- C8 (code bug, evaluated at the failing input): one run with a single
tile (`totalTiles = 1`, one batch downloading it) stores the progress values
`0, 0, 90, 0, 100` in order — the CHUNKING update resends the stale local
`progress: 0` field, so the stored progress drops from 90 back to 0 before
COMPLETED forces it to 100, breaking monotonicity. -/
theorem progress_resets_during_chunking :
    pipelineProgressValues 1 [(1, 0)] 7 = [0, 0, 90, 0, 100]
  ∧ ¬ List.Chain' (· ≤ ·) (pipelineProgressValues 1 [(1, 0)] 7) := by
  have h : pipelineProgressValues 1 [(1, 0)] 7 = [0, 0, 90, 0, 100] := by
    have h90 : downloadProgress 1 1 = 90 := by
      rw [downloadProgress, jsRound, Int.floor_eq_iff]
      constructor
      · norm_num
      · norm_num
    simp [pipelineProgressValues, pipelineRecords, updateProgress, mergeRecords,
      initialMetadata, downloadingUpdate, batchUpdate, chunkingUpdate, completedUpdate,
      emptyRecord, h90, List.scanl]
  refine ⟨h, ?_⟩
  rw [h]
  simp [List.chain'_cons]

/-- C9 (amended): for zoom levels at most 30 — where the 32-bit shift
`1 << zoom` equals `2 ^ zoom` — tile columns come from
`floor(((longitude + 180) / 360) * 2 ^ zoom)`; `calculateTileCount` is the
sum over each zoom in `[minZoom, maxZoom]` of
`(maxX - minX + 1) * (maxY - minY + 1)` on the box's corners; it returns 0
when `minZoom > maxZoom`; and it is strictly positive for a well-formed box
(southwest strictly south-west of northeast, latitudes strictly inside
(-90, 90), where the Mercator formula is defined) with
`minZoom ≤ maxZoom ≤ 30`. -/
theorem calculateTileCount_spec :
    (∀ (lng : ℝ) (z : Nat), z ≤ 30 →
        longitudeToTileX lng z = ⌊(lng + 180) / 360 * ((2 : ℝ) ^ z)⌋)
  ∧ (∀ (b : GeoBounds) (minZoom maxZoom : Nat),
        calculateTileCount b minZoom maxZoom
          = ∑ z in Finset.Icc minZoom maxZoom,
              (longitudeToTileX b.northeast.longitude z
                  - longitudeToTileX b.southwest.longitude z + 1)
              * (latitudeToTileY b.southwest.latitude z
                  - latitudeToTileY b.northeast.latitude z + 1))
  ∧ (∀ (b : GeoBounds) (minZoom maxZoom : Nat), maxZoom < minZoom →
        calculateTileCount b minZoom maxZoom = 0)
  ∧ (∀ (b : GeoBounds) (minZoom maxZoom : Nat),
        b.southwest.latitude < b.northeast.latitude →
        b.southwest.longitude < b.northeast.longitude →
        -90 < b.southwest.latitude → b.northeast.latitude < 90 →
        minZoom ≤ maxZoom → maxZoom ≤ 30 →
        0 < calculateTileCount b minZoom maxZoom) := by
  refine ⟨?_, calculateTileCount_eq_Icc_sum, calculateTileCount_degenerate,
    calculateTileCount_pos⟩
  intro lng z hz
  rw [longitudeToTileX, jsShl1_of_le_30 z hz]
  norm_num

/-- Witness for C9 (amended) at the spec's scenario box
`sw (-2.70, 111.60), ne (-2.50, 111.80)` with zoom range 14-14. -/
theorem calculateTileCount_spec_witness :
    0 < calculateTileCount
        { southwest := { latitude := -2.70, longitude := 111.60 },
          northeast := { latitude := -2.50, longitude := 111.80 } } 14 14 :=
  calculateTileCount_spec.2.2.2 _ 14 14 (by norm_num) (by norm_num) (by norm_num)
    (by norm_num) le_rfl (by norm_num)

/-- C9 (counterexample): at zoom 31 the 32-bit shift `1 << 31` is the
negative value `-2^31`, so the tile-column formula is decreasing in the
longitude there; for this well-formed box (southwest strictly south-west of
northeast, `minZoom = maxZoom = 31`) the per-zoom term has column factor
`maxX - minX + 1 = 0` and `calculateTileCount` returns 0, which the claim
says can never happen. -/
theorem calculateTileCount_zoom31_zero :
    ((0 : ℝ) < 1 ∧ (0 : ℝ) < 1 / 10 ^ 7)
  ∧ calculateTileCount
      { southwest := { latitude := 0, longitude := 0 },
        northeast := { latitude := 1, longitude := 1 / 10 ^ 7 } } 31 31 = 0 := by
  refine ⟨⟨by norm_num, by norm_num⟩, ?_⟩
  have hshift : jsShl1 31 = -(2 ^ 31) := by decide
  have h1 : longitudeToTileX 0 31 = -1073741824 := by
    rw [longitudeToTileX, hshift, Int.floor_eq_iff]
    constructor
    · push_cast
      norm_num
    · push_cast
      norm_num
  have h2 : longitudeToTileX (1 / 10 ^ 7) 31 = -1073741825 := by
    rw [longitudeToTileX, hshift, Int.floor_eq_iff]
    constructor
    · push_cast
      norm_num
    · push_cast
      norm_num
  rw [calculateTileCount, show (31 + 1 - 31 : Nat) = 1 from rfl,
    show List.range' 31 1 = [31] from rfl, List.map_cons, List.map_nil]
  dsimp only
  rw [h1, h2]
  simp

/-- C10: a progress update for a `downloadId` with no stored metadata record
does not fail and reports no missing-job condition: it creates a brand-new
record holding exactly the supplied fields, with `updatedAt` recomputed to
the current instant. -/
theorem updateProgress_creates_missing_record (upd : JobRecord) (now : Nat) :
    updateProgress none upd now = { upd with updatedAt := some now } := by
  rw [updateProgress]
  dsimp only [Option.getD]
  rw [mergeRecords_empty]
